import Mathlib

/-!
Verification development for the field-merge engine of a clinical-visit
assistant.  The engine lives in `src/audio/create_database.py`
(`update_record`, lines 103-200): given the current patient row (a dict
of column name to nullable text) and a proposed partial update, it
decides field by field what to store, using comma-separated-set union
semantics for list-like fields, timestamped append semantics for
`notes`, and a protected-field list that is never written.

Python strings are modelled as Lean `String` (with `List Char` data),
nullable values as `Option String`, dicts as association lists, and the
current wall-clock timestamp as an explicit parameter.  Python's
`str.split`, `str.strip`, `str.lower` and `sorted` are reimplemented
character by character so every step of the Python code has a direct
counterpart here.
-/

/-- A patient row / dict as loaded from the database: column name to
nullable text value, in column order. -/
abbrev Row := List (String × Option String)

/-- The `update_data` mapping built by `update_record`: field name to the
new text value to store. -/
abbrev Updates := List (String × String)

/-- Lowercasing of a character list, modelling Python `str.lower()` on the
ASCII range (the only range the repository's data exercises). -/
def lowerC (l : List Char) : List Char := l.map Char.toLower

/-- The characters of the literal token `none`, which the merge engine
filters out of the current value's token set (line 147). -/
def noneTok : List Char := ['n', 'o', 'n', 'e']

/-- Python `str.strip()`: drop leading and trailing whitespace. -/
def stripChars (l : List Char) : List Char :=
  ((l.dropWhile Char.isWhitespace).reverse.dropWhile Char.isWhitespace).reverse

/-- Python `str.split(',')`: split on every comma, keeping empty pieces;
the empty string yields one empty piece. -/
def splitComma : List Char → List (List Char)
  | [] => [[]]
  | c :: cs =>
    if c = ',' then [] :: splitComma cs
    else
      match splitComma cs with
      | [] => [[c]]
      | p :: ps => (c :: p) :: ps

/-- All comma-pieces of a value, stripped, with empty pieces dropped:
the common core of the token-set comprehensions on lines 147-148. -/
def rawTokens (s : List Char) : List (List Char) :=
  ((splitComma s).map stripChars).filter (fun t => decide (t ≠ []))

/-- Line 147: the current value's token set — stripped lowercased
comma-pieces, dropping empties and any token equal to `none`
case-insensitively.  Represented as a duplicate-free list. -/
def curItems (cv : String) : List (List Char) :=
  (((rawTokens cv.data).filter (fun t => decide (lowerC t ≠ noneTok))).map lowerC).dedup

/-- Line 148: the proposed value's token set — stripped lowercased
comma-pieces, dropping only empties (no `none` filter on this side). -/
def newItems (nv : String) : List (List Char) :=
  ((rawTokens nv.data).map lowerC).dedup

/-- Strict lexicographic order on character lists by code point, the
order Python `sorted` uses on strings. -/
def charListLt : List Char → List Char → Bool
  | [], [] => false
  | [], _ :: _ => true
  | _ :: _, [] => false
  | a :: as, b :: bs => if a < b then true else if b < a then false else charListLt as bs

/-- Insertion step of the sort used to model Python `sorted`. -/
def insertTok (x : List Char) : List (List Char) → List (List Char)
  | [] => [x]
  | y :: ys => if charListLt x y then x :: y :: ys else y :: insertTok x ys

/-- Python `sorted` on a collection of distinct strings. -/
def sortTokens (l : List (List Char)) : List (List Char) := l.foldr insertTok []

/-- Line 160/161: the first stripped comma-piece of `s` whose lowercased
form is `k` (the generator expressions fed to `next`). -/
def findCasing (s : List Char) (k : List Char) : Option (List Char) :=
  ((splitComma s).map stripChars).find? (fun x => decide (lowerC x = k))

/-- Lines 159-162: preferred casing for the canonical token `k` — first
matching piece of the proposed value, else of the current value, else
`k` itself. -/
def originalCase (nvd cvd : List Char) (k : List Char) : List Char :=
  match findCasing nvd k with
  | some x => x
  | none =>
    match findCasing cvd k with
    | some y => y
    | none => k

/-- Python `', '.join(...)` on character lists. -/
def joinWithCS : List (List Char) → List Char
  | [] => []
  | [a] => a
  | a :: b :: t => a ++ ',' :: ' ' :: joinWithCS (b :: t)

/-- Lines 157-164: rebuild the stored string from the sorted canonical
keys, choosing each item's casing via `originalCase`. -/
def finalValue (cv nv : String) (keys : List (List Char)) : String :=
  ⟨joinWithCS (keys.map (originalCase nv.data cv.data))⟩

/-- Line 133: fields `update_record` must never write. -/
def protected_fields : List String :=
  ["id", "first_name", "last_name", "date_of_birth", "gender", "created_at", "updated_at"]

/-- First-match lookup in an association list, i.e. Python dict access
on a well-formed (duplicate-free) dict. -/
def lookupS {α : Type} (k : String) : List (String × α) → Option α
  | [] => none
  | (k₁, v) :: t => if k = k₁ then some v else lookupS k t

/-- Python `dict.get(key)`: `None` both when the key is absent and when
it is stored as `None`. -/
def dget (r : Row) (k : String) : Option String :=
  match lookupS k r with
  | some v => v
  | none => none

/-- Python `update_data[key] = v`: overwrite in place if the key exists
(keeping its position), otherwise append. -/
def setAssoc (u : Updates) (k : String) (v : String) : Updates :=
  if u.any (fun p => decide (p.1 = k)) then u.map (fun p => if p.1 = k then (k, v) else p)
  else u ++ [(k, v)]

/-- Lines 141-164, the per-field merge decision for a non-protected field
with a non-null proposed value `nv`: `some w` means `update_data[key] = w`,
`none` means the field is skipped. -/
def mergeField (cv? : Option String) (key : String) (nv : String) : Option String :=
  if cv? = none ∨ cv? = some "None" ∨ cv? = some "" then some nv
  else
    match cv? with
    | none => some nv
    | some cv =>
      if key = "notes" then none
      else
        let cur := curItems cv
        let diff := (newItems nv).filter (fun t => decide (t ∉ cur))
        if diff = [] then none
        else some (finalValue cv nv (sortTokens (cur ++ diff)))

/-- One iteration of the per-field loop (lines 137-164): skip protected
fields and null values, otherwise store the `mergeField` decision. -/
def buildStep (cd : Row) (acc : Updates) (kv : String × Option String) : Updates :=
  match kv.2 with
  | none => acc
  | some nv =>
    if kv.1 ∈ protected_fields then acc
    else
      match mergeField (dget cd kv.1) kv.1 nv with
      | none => acc
      | some w => setAssoc acc kv.1 w

/-- Lines 136-164: the per-field loop over `data.items()`, skipping
protected fields and null values, building `update_data`. -/
def buildUpdates (cd : Row) (data : Row) : Updates :=
  data.foldl (buildStep cd) []

/-- Lines 166-174: the separate notes handling — when `data.get('notes')`
is truthy, append the note under a bracketed timestamp, with no leading
separator when the current notes is null, empty or the string `None`. -/
def mergeNotes (cd : Row) (data : Row) (ts : String) (u : Updates) : Updates :=
  match dget data "notes" with
  | none => u
  | some nv =>
    if nv = "" then u
    else
      let newNotes :=
        match dget cd "notes" with
        | none => "[" ++ ts ++ "]\n" ++ nv
        | some cn =>
          if cn = "None" ∨ cn = "" then "[" ++ ts ++ "]\n" ++ nv
          else cn ++ "\n\n[" ++ ts ++ "]\n" ++ nv
      setAssoc u "notes" newNotes

/-- Lines 112-174 of `update_record`: the full `update_data` mapping the
engine decides to persist, given the current row `cd`, the proposed
update `data` and the current timestamp `ts`.  The guard on line 113
returns early when every proposed value is null. -/
def update_record_updates (cd : Row) (data : Row) (ts : String) : Updates :=
  if data.all (fun kv => kv.2.isNone) then []
  else mergeNotes cd data ts (buildUpdates cd data)

/-- Lines 176-180 plus the `update_patient_timestamp` trigger: the write
is only issued when `update_data` is non-empty, in which case the listed
columns change and the trigger bumps `updated_at` to the write time. -/
def performUpdate (row : Row) (u : Updates) (ts2 : String) : Row :=
  if u = [] then row
  else row.map (fun p =>
    (p.1, if p.1 = "updated_at" then some ts2
          else
            match lookupS p.1 u with
            | some w => some w
            | none => p.2))

/-- Python `str.split(', ')` (exact two-character separator), used only
by the change-summary loop on lines 192-193. -/
def splitCommaSpace : List Char → List (List Char)
  | [] => [[]]
  | ',' :: ' ' :: rest => [] :: splitCommaSpace rest
  | c :: cs =>
    match splitCommaSpace cs with
    | [] => [[c]]
    | p :: ps => (c :: p) :: ps

/-- Stripped nonempty `', '`-pieces of a value, for the summary loop. -/
def sumTokens (s : List Char) : List (List Char) :=
  ((splitCommaSpace s).map stripChars).filter (fun t => decide (t ≠ []))

/-- Line 192: current token set as recomputed by the summary loop
(split on `', '`, dropping `none` tokens). -/
def sumCurItems (cv : String) : List (List Char) :=
  (((sumTokens cv.data).filter (fun t => decide (lowerC t ≠ noneTok))).map lowerC).dedup

/-- Line 193: stored-value token set as recomputed by the summary loop. -/
def sumNewItems (v : String) : List (List Char) :=
  ((sumTokens v.data).map lowerC).dedup

/-- The per-field change summary printed on lines 183-198, as structured
data: category plus the payload the print statement interpolates. -/
inductive FieldChange : Type
  | addedNoteEntry : FieldChange
  | setInitialValue : String → FieldChange
  | addedNewItems : String → FieldChange
  | noNewItems : FieldChange
deriving DecidableEq

/-- Lines 185-198: the summary entry for one `update_data` item. -/
def fieldSummary (cd : Row) (key value : String) : FieldChange :=
  if key = "notes" then .addedNoteEntry
  else
    match dget cd key with
    | none => .setInitialValue value
    | some cv =>
      if cv = "None" ∨ cv = "" then .setInitialValue value
      else
        let added := (sumNewItems value).filter (fun t => decide (t ∉ sumCurItems cv))
        if added = [] then .noNewItems
        else .addedNewItems ⟨joinWithCS (sortTokens added)⟩

/-- Lines 183-198: the whole change summary, one entry per updated field. -/
def update_record_summary (cd : Row) (u : Updates) : List (String × FieldChange) :=
  u.map (fun kv => (kv.1, fieldSummary cd kv.1 kv.2))

/-- The merge engine's complete observable result: the fields to persist
and the change summary (the summary loop only runs when a write is
issued, line 176). -/
def update_record_result (cd : Row) (data : Row) (ts : String) :
    Updates × List (String × FieldChange) :=
  let u := update_record_updates cd data ts
  (u, if u = [] then [] else update_record_summary cd u)

/-- Python `str()` applied to a nullable value in an f-string. -/
def optStr (v : Option String) : String :=
  match v with
  | some s => s
  | none => "None"

/-- Python `d[key]` subscript access, which raises `KeyError` when the
key is absent — the only fallible primitive the merge engine uses. -/
def dictGet (r : Row) (k : String) : Except String (Option String) :=
  match lookupS k r with
  | some v => Except.ok v
  | none => Except.error ("KeyError: " ++ k)

/-- Lines 166-174 with the fallible `data['notes']` subscripts (lines
171 and 173) modelled explicitly as `Except`. -/
def mergeNotesE (cd : Row) (data : Row) (ts : String) (u : Updates) : Except String Updates :=
  match dget data "notes" with
  | none => Except.ok u
  | some nv =>
    if nv = "" then Except.ok u
    else
      match dget cd "notes" with
      | none => do
        let x ← dictGet data "notes"
        Except.ok (setAssoc u "notes" ("[" ++ ts ++ "]\n" ++ optStr x))
      | some cn =>
        if cn = "None" ∨ cn = "" then do
          let x ← dictGet data "notes"
          Except.ok (setAssoc u "notes" ("[" ++ ts ++ "]\n" ++ optStr x))
        else do
          let x ← dictGet data "notes"
          Except.ok (setAssoc u "notes" (cn ++ "\n\n[" ++ ts ++ "]\n" ++ optStr x))

/-- Lines 185-198 with the fallible `current_data[key]` subscript
(line 192) modelled explicitly as `Except`. -/
def fieldSummaryE (cd : Row) (key value : String) : Except String FieldChange :=
  if key = "notes" then Except.ok .addedNoteEntry
  else
    match dget cd key with
    | none => Except.ok (.setInitialValue value)
    | some cv =>
      if cv = "None" ∨ cv = "" then Except.ok (.setInitialValue value)
      else do
        let x ← dictGet cd key
        let cvs := optStr x
        let added := (sumNewItems value).filter (fun t => decide (t ∉ sumCurItems cvs))
        if added = [] then Except.ok .noNewItems
        else Except.ok (.addedNewItems ⟨joinWithCS (sortTokens added)⟩)

/-- The summary loop over `update_data.items()`, fallible version. -/
def summariesE (cd : Row) : Updates → Except String (List (String × FieldChange))
  | [] => Except.ok []
  | kv :: rest => do
    let c ← fieldSummaryE cd kv.1 kv.2
    let s ← summariesE cd rest
    Except.ok ((kv.1, c) :: s)

/-- The whole merge computation of `update_record` with every Python
subscript access modelled as fallible: if this returns `Except.ok`, the
Python code raises no exception on the corresponding input. -/
def update_recordE (cd : Row) (data : Row) (ts : String) :
    Except String (Updates × List (String × FieldChange)) :=
  if data.all (fun kv => kv.2.isNone) then Except.ok ([], [])
  else do
    let u ← mergeNotesE cd data ts (buildUpdates cd data)
    if u = [] then Except.ok (u, [])
    else do
      let s ← summariesE cd u
      Except.ok (u, s)

/-! ## Association-list lemmas -/

theorem mem_of_lookupS_eq_some {α : Type} {k : String} {x : α} :
    ∀ {l : List (String × α)}, lookupS k l = some x → (k, x) ∈ l := by
  intro l
  induction l with
  | nil => intro h; simp [lookupS] at h
  | cons p t ih =>
    obtain ⟨k₁, v⟩ := p
    intro h
    by_cases hp : k = k₁
    · subst hp
      simp [lookupS] at h
      subst h
      exact List.mem_cons_self _ _
    · simp only [lookupS, if_neg hp] at h
      exact List.mem_cons_of_mem _ (ih h)

theorem lookupS_isSome_iff {α : Type} {k : String} :
    ∀ {l : List (String × α)}, (lookupS k l).isSome ↔ k ∈ l.map Prod.fst := by
  intro l
  induction l with
  | nil => simp [lookupS]
  | cons p t ih =>
    obtain ⟨k₁, v⟩ := p
    by_cases hp : k = k₁
    · subst hp
      simp [lookupS]
    · simp only [lookupS, if_neg hp, List.map_cons, List.mem_cons]
      rw [ih]
      simp [hp]

theorem lookupS_eq_none_of_notMem {α : Type} {k : String} {l : List (String × α)}
    (h : k ∉ l.map Prod.fst) : lookupS k l = none := by
  cases he : lookupS k l with
  | none => rfl
  | some x =>
    exact absurd (lookupS_isSome_iff.mp (by rw [he]; rfl)) h

theorem dget_lookup_eq_some {r : Row} {k : String} {v : String}
    (h : dget r k = some v) : lookupS k r = some (some v) := by
  unfold dget at h
  cases he : lookupS k r with
  | none => rw [he] at h; simp at h
  | some x =>
    rw [he] at h
    simp only [] at h
    rw [h]

theorem lookupS_map_overwrite {k : String} {v : String} :
    ∀ {u : Updates}, u.any (fun p => decide (p.1 = k)) = true →
    lookupS k (u.map (fun p => if p.1 = k then (k, v) else p)) = some v := by
  intro u
  induction u with
  | nil => intro h; simp at h
  | cons p t ih =>
    obtain ⟨k₁, w⟩ := p
    intro h
    by_cases hp : k₁ = k
    · subst hp
      rw [List.map_cons, if_pos (show ((k₁, w)).1 = k₁ from rfl)]
      simp only [lookupS]
      simp
    · have ht : t.any (fun p => decide (p.1 = k)) = true := by
        simp only [List.any_cons, Bool.or_eq_true, decide_eq_true_eq] at h
        exact h.resolve_left hp
      rw [List.map_cons, if_neg hp]
      simp only [lookupS]
      rw [if_neg (fun hk => hp hk.symm)]
      exact ih ht

theorem lookupS_map_overwrite_ne {k' k : String} {v : String} (h : k' ≠ k) :
    ∀ {u : Updates},
    lookupS k' (u.map (fun p => if p.1 = k then (k, v) else p)) = lookupS k' u := by
  intro u
  induction u with
  | nil => rfl
  | cons p t ih =>
    obtain ⟨k₁, w⟩ := p
    by_cases hp : k₁ = k
    · subst hp
      rw [List.map_cons, if_pos (show ((k₁, w)).1 = k₁ from rfl)]
      simp only [lookupS]
      rw [if_neg h, if_neg h]
      exact ih
    · rw [List.map_cons, if_neg hp]
      simp only [lookupS]
      by_cases hk' : k' = k₁
      · rw [if_pos hk', if_pos hk']
      · rw [if_neg hk', if_neg hk']
        exact ih

theorem lookupS_append_last {k : String} {v : String} :
    ∀ {u : Updates}, (∀ p ∈ u, p.1 ≠ k) → lookupS k (u ++ [(k, v)]) = some v := by
  intro u
  induction u with
  | nil =>
    intro _
    simp only [List.nil_append, lookupS]
    simp
  | cons p t ih =>
    obtain ⟨k₁, w⟩ := p
    intro h
    have hp : k₁ ≠ k := h (k₁, w) (List.mem_cons_self _ _)
    simp only [List.cons_append, lookupS]
    rw [if_neg (fun hk => hp hk.symm)]
    exact ih (fun q hq => h q (List.mem_cons_of_mem _ hq))

theorem lookupS_append_single_ne {k' k : String} {v : String} (h : k' ≠ k) :
    ∀ {u : Updates}, lookupS k' (u ++ [(k, v)]) = lookupS k' u := by
  intro u
  induction u with
  | nil =>
    simp only [List.nil_append, lookupS]
    rw [if_neg h]
  | cons p t ih =>
    obtain ⟨k₁, w⟩ := p
    simp only [List.cons_append, lookupS]
    by_cases hk' : k' = k₁
    · rw [if_pos hk', if_pos hk']
    · rw [if_neg hk', if_neg hk']
      exact ih

theorem lookupS_setAssoc_self (u : Updates) (k : String) (v : String) :
    lookupS k (setAssoc u k v) = some v := by
  unfold setAssoc
  by_cases h : u.any (fun p => decide (p.1 = k)) = true
  · rw [if_pos h]
    exact lookupS_map_overwrite h
  · rw [if_neg h]
    refine lookupS_append_last ?_
    intro p hp hpk
    exact h (List.any_eq_true.mpr ⟨p, hp, by simpa using hpk⟩)

theorem lookupS_setAssoc_ne {k' k : String} (h : k' ≠ k) (u : Updates) (v : String) :
    lookupS k' (setAssoc u k v) = lookupS k' u := by
  unfold setAssoc
  by_cases ha : u.any (fun p => decide (p.1 = k)) = true
  · rw [if_pos ha]
    exact lookupS_map_overwrite_ne h
  · rw [if_neg ha]
    exact lookupS_append_single_ne h

theorem keys_map_overwrite {u : Updates} {k : String} {v : String} :
    (u.map (fun p => if p.1 = k then (k, v) else p)).map Prod.fst = u.map Prod.fst := by
  rw [List.map_map]
  refine List.map_congr_left ?_
  intro p _
  by_cases hp : p.1 = k
  · simp [hp]
  · simp [hp]

theorem mem_keys_setAssoc {u : Updates} {k v a} :
    a ∈ (setAssoc u k v).map Prod.fst → a ∈ u.map Prod.fst ∨ a = k := by
  intro h
  unfold setAssoc at h
  by_cases ha : u.any (fun p => decide (p.1 = k)) = true
  · rw [if_pos ha, keys_map_overwrite] at h
    exact Or.inl h
  · rw [if_neg ha] at h
    simp only [List.map_append, List.map_cons, List.map_nil, List.mem_append,
      List.mem_singleton] at h
    exact h

/-! ## Characterizing the per-field loop and the notes block -/

theorem lookupS_foldl_of_notMem {cd : Row} {k : String} :
    ∀ {data : Row} {acc : Updates}, k ∉ data.map Prod.fst →
    lookupS k (data.foldl (buildStep cd) acc) = lookupS k acc := by
  intro data
  induction data with
  | nil => intro acc _; rfl
  | cons kv rest ih =>
    intro acc h
    simp only [List.map_cons, List.mem_cons] at h
    push_neg at h
    obtain ⟨hk, hrest⟩ := h
    rw [List.foldl_cons, ih hrest]
    unfold buildStep
    obtain ⟨k₁, x⟩ := kv
    cases x with
    | none => rfl
    | some nv =>
      simp only []
      by_cases hp : k₁ ∈ protected_fields
      · rw [if_pos hp]
      · rw [if_neg hp]
        cases mergeField (dget cd k₁) k₁ nv with
        | none => rfl
        | some w => exact lookupS_setAssoc_ne hk _ _

theorem lookupS_foldl_buildStep {cd : Row} {k : String} :
    ∀ {data : Row} {acc : Updates}, (data.map Prod.fst).Nodup →
    lookupS k (data.foldl (buildStep cd) acc) =
      ((lookupS k data).bind (fun x => x.bind (fun v =>
        if k ∈ protected_fields then none else mergeField (dget cd k) k v))).orElse
        (fun _ => lookupS k acc) := by
  intro data
  induction data with
  | nil => intro acc _; simp [lookupS, Option.orElse]
  | cons kv rest ih =>
    intro acc hnd
    obtain ⟨k₁, x⟩ := kv
    simp only [List.map_cons, List.nodup_cons] at hnd
    obtain ⟨hk₁, hndr⟩ := hnd
    rw [List.foldl_cons]
    by_cases hp : k = k₁
    · subst hp
      rw [lookupS_foldl_of_notMem hk₁]
      simp only [lookupS, if_pos rfl]
      unfold buildStep
      cases x with
      | none => simp [Option.orElse]
      | some nv =>
        simp only []
        by_cases hprot : k ∈ protected_fields
        · rw [if_pos hprot]
          simp [Option.orElse, hprot]
        · rw [if_neg hprot]
          cases hm : mergeField (dget cd k) k nv with
          | none => simp [Option.orElse, hprot, hm]
          | some w =>
            simp [Option.orElse, hprot, hm, lookupS_setAssoc_self]
    · rw [ih hndr]
      simp only [lookupS]
      rw [if_neg hp]
      have hacc : lookupS k (buildStep cd acc (k₁, x)) = lookupS k acc := by
        unfold buildStep
        cases x with
        | none => rfl
        | some nv =>
          simp only []
          by_cases hprot : k₁ ∈ protected_fields
          · rw [if_pos hprot]
          · rw [if_neg hprot]
            cases mergeField (dget cd k₁) k₁ nv with
            | none => rfl
            | some w => exact lookupS_setAssoc_ne hp _ _
      rw [hacc]

theorem lookupS_buildUpdates {cd : Row} {data : Row} (hnd : (data.map Prod.fst).Nodup)
    (k : String) :
    lookupS k (buildUpdates cd data) =
      (lookupS k data).bind (fun x => x.bind (fun v =>
        if k ∈ protected_fields then none else mergeField (dget cd k) k v)) := by
  unfold buildUpdates
  rw [lookupS_foldl_buildStep hnd]
  cases (lookupS k data).bind (fun x => x.bind (fun v =>
      if k ∈ protected_fields then none else mergeField (dget cd k) k v)) with
  | none => simp [lookupS, Option.orElse]
  | some w => simp [Option.orElse]

theorem mem_keys_foldl_buildStep {cd : Row} {k : String} :
    ∀ {data : Row} {acc : Updates}, k ∈ (data.foldl (buildStep cd) acc).map Prod.fst →
    k ∈ acc.map Prod.fst ∨ (∃ v, (k, some v) ∈ data ∧ k ∉ protected_fields) := by
  intro data
  induction data with
  | nil => intro acc h; exact Or.inl h
  | cons kv rest ih =>
    intro acc h
    rw [List.foldl_cons] at h
    rcases ih h with hacc | ⟨v, hv, hnp⟩
    · unfold buildStep at hacc
      obtain ⟨k₁, x⟩ := kv
      cases x with
      | none => exact Or.inl hacc
      | some nv =>
        simp only [] at hacc
        by_cases hprot : k₁ ∈ protected_fields
        · rw [if_pos hprot] at hacc
          exact Or.inl hacc
        · rw [if_neg hprot] at hacc
          cases hm : mergeField (dget cd k₁) k₁ nv with
          | none => rw [hm] at hacc; exact Or.inl hacc
          | some w =>
            rw [hm] at hacc
            rcases mem_keys_setAssoc hacc with h' | rfl
            · exact Or.inl h'
            · exact Or.inr ⟨nv, List.mem_cons_self _ _, hprot⟩
    · exact Or.inr ⟨v, List.mem_cons_of_mem _ hv, hnp⟩

theorem mem_keys_buildUpdates {cd : Row} {data : Row} {k : String}
    (h : k ∈ (buildUpdates cd data).map Prod.fst) :
    ∃ v, (k, some v) ∈ data ∧ k ∉ protected_fields := by
  unfold buildUpdates at h
  rcases mem_keys_foldl_buildStep h with h' | h'
  · simp at h'
  · exact h'

theorem lookupS_mergeNotes_ne {cd data : Row} {ts : String} {u : Updates} {k : String}
    (h : k ≠ "notes") : lookupS k (mergeNotes cd data ts u) = lookupS k u := by
  unfold mergeNotes
  cases dget data "notes" with
  | none => rfl
  | some nv =>
    simp only []
    by_cases he : nv = ""
    · rw [if_pos he]
    · rw [if_neg he]
      exact lookupS_setAssoc_ne h _ _

theorem mergeNotes_cases (cd data : Row) (ts : String) (u : Updates) :
    mergeNotes cd data ts u = u ∨ ∃ nn, mergeNotes cd data ts u = setAssoc u "notes" nn := by
  unfold mergeNotes
  cases dget data "notes" with
  | none => exact Or.inl rfl
  | some nv =>
    simp only []
    by_cases he : nv = ""
    · rw [if_pos he]
      exact Or.inl rfl
    · rw [if_neg he]
      exact Or.inr ⟨_, rfl⟩

theorem mem_keys_mergeNotes {cd data : Row} {ts : String} {u : Updates} {k : String}
    (h : k ∈ (mergeNotes cd data ts u).map Prod.fst) :
    k ∈ u.map Prod.fst ∨ k = "notes" := by
  rcases mergeNotes_cases cd data ts u with he | ⟨nn, he⟩
  · rw [he] at h
    exact Or.inl h
  · rw [he] at h
    exact mem_keys_setAssoc h

theorem all_none_eq_false_of_mem {data : Row} {k : String} {v : String}
    (h : (k, some v) ∈ data) : data.all (fun kv => kv.2.isNone) = false := by
  rcases hb : data.all (fun kv => kv.2.isNone) with _ | _
  · rfl
  · have := List.all_eq_true.mp hb (k, some v) h
    simp at this

theorem lookupS_update_record_updates {cd data : Row} {ts : String} {k : String} {v : String}
    (hnd : (data.map Prod.fst).Nodup) (hk : k ≠ "notes")
    (hl : lookupS k data = some (some v)) :
    lookupS k (update_record_updates cd data ts) =
      (if k ∈ protected_fields then none else mergeField (dget cd k) k v) := by
  unfold update_record_updates
  rw [all_none_eq_false_of_mem (mem_of_lookupS_eq_some hl)]
  simp only [Bool.false_eq_true, if_false]
  rw [lookupS_mergeNotes_ne hk, lookupS_buildUpdates hnd, hl]
  rfl

/-! ## The list-like branch of mergeField, isolated -/

theorem mergeField_listCase {cv : String} (k nv : String)
    (h1 : cv ≠ "None") (h2 : cv ≠ "") (hk : k ≠ "notes") :
    mergeField (some cv) k nv =
      (if (newItems nv).filter (fun t => decide (t ∉ curItems cv)) = [] then none
       else some (finalValue cv nv (sortTokens (curItems cv ++
         (newItems nv).filter (fun t => decide (t ∉ curItems cv)))))) := by
  unfold mergeField
  have hnn : ¬(some cv = none ∨ some cv = some "None" ∨ some cv = some "") := by
    push_neg
    exact ⟨by simp, by simp [h1], by simp [h2]⟩
  rw [if_neg hnn]
  simp only []
  rw [if_neg hk]

theorem mergeField_nullish {cv? : Option String} (k nv : String)
    (h : cv? = none ∨ cv? = some "None" ∨ cv? = some "") :
    mergeField cv? k nv = some nv := by
  unfold mergeField
  rw [if_pos h]

/-! ## Claim theorems: protection, no-op frame, notes rules, bootstrap -/

/-- Claim C2: for every current record and proposed update, no protected
field (`id`, `first_name`, `last_name`, `date_of_birth`, `gender`,
`created_at`, `updated_at`) ever appears in the updates mapping the merge
produces, regardless of the value proposed for it. -/
theorem protected_fields_never_updated (cd data : Row) (ts : String) (p : String)
    (hp : p ∈ protected_fields) :
    p ∉ (update_record_updates cd data ts).map Prod.fst := by
  intro hmem
  unfold update_record_updates at hmem
  by_cases hall : data.all (fun kv => kv.2.isNone) = true
  · rw [if_pos hall] at hmem
    simp at hmem
  · rw [if_neg hall] at hmem
    rcases mem_keys_mergeNotes hmem with hbu | rfl
    · obtain ⟨v, -, hnp⟩ := mem_keys_buildUpdates hbu
      exact hnp hp
    · exact absurd hp (by decide)

/-- Witness for C2 at a concrete protected field and update. -/
theorem protected_fields_never_updated_witness :
    "date_of_birth" ∈ protected_fields ∧
    "date_of_birth" ∉ (update_record_updates [("date_of_birth", some "1979-01-15")]
      [("date_of_birth", some "2000-01-01")] "T").map Prod.fst :=
  ⟨by decide,
   protected_fields_never_updated [("date_of_birth", some "1979-01-15")]
     [("date_of_birth", some "2000-01-01")] "T" "date_of_birth" (by decide)⟩

/-- Claim C7: whenever the updates mapping is empty after applying all
per-field rules — whatever the reason, and in particular when every value
in the proposed update is null — the merge issues no write at all, so
every stored field of the record, `updated_at` included, is unchanged. -/
theorem all_null_no_op (row data : Row) (ts ts2 : String) :
    (update_record_updates row data ts = [] →
      performUpdate row (update_record_updates row data ts) ts2 = row) ∧
    ((∀ kv ∈ data, kv.2 = none) → update_record_updates row data ts = []) := by
  constructor
  · intro h
    rw [h]
    unfold performUpdate
    rw [if_pos rfl]
  · intro h
    have hall : data.all (fun kv => kv.2.isNone) = true :=
      List.all_eq_true.mpr (fun kv hkv => by rw [h kv hkv]; rfl)
    unfold update_record_updates
    rw [if_pos hall]

/-- Witness for C7: an empty updates mapping arising from non-null values
(proposed `"fever"` over current `"Fever"`) leaves the record unchanged,
and an all-null update produces an empty updates mapping. -/
theorem all_null_no_op_witness :
    performUpdate [("symptoms", some "Fever"), ("updated_at", some "t0")]
      (update_record_updates [("symptoms", some "Fever"), ("updated_at", some "t0")]
        [("symptoms", some "fever")] "T") "T2" =
      [("symptoms", some "Fever"), ("updated_at", some "t0")] ∧
    update_record_updates [("symptoms", some "Fever"), ("updated_at", some "t0")]
      [("symptoms", none), ("diagnosis", none)] "T" = [] :=
  ⟨(all_null_no_op [("symptoms", some "Fever"), ("updated_at", some "t0")]
      [("symptoms", some "fever")] "T" "T2").1 (by decide),
   (all_null_no_op [("symptoms", some "Fever"), ("updated_at", some "t0")]
      [("symptoms", none), ("diagnosis", none)] "T" "T2").2 (by decide)⟩

/-- Claim C6: when the proposed update carries a non-empty notes value,
the stored notes become the current notes, two newlines, a bracketed
timestamp line, then the note text; with a null, empty or literal
`"None"` current notes the leading separator is omitted. -/
theorem notes_append_rule (cd data : Row) (ts : String) (nv : String)
    (h1 : dget data "notes" = some nv) (h2 : nv ≠ "") :
    lookupS "notes" (update_record_updates cd data ts) =
      some (match dget cd "notes" with
            | none => "[" ++ ts ++ "]\n" ++ nv
            | some cn =>
              if cn = "None" ∨ cn = "" then "[" ++ ts ++ "]\n" ++ nv
              else cn ++ "\n\n[" ++ ts ++ "]\n" ++ nv) := by
  have hl := dget_lookup_eq_some h1
  unfold update_record_updates
  rw [all_none_eq_false_of_mem (mem_of_lookupS_eq_some hl)]
  simp only [Bool.false_eq_true, if_false]
  unfold mergeNotes
  rw [h1]
  simp only []
  rw [if_neg h2]
  exact lookupS_setAssoc_self _ _ _

/-- Witness for C6: the spec's own test case `merge({notes: "[T0]\nA"},
{notes: "B"})` at time `T1` yields `"[T0]\nA\n\n[T1]\nB"`. -/
theorem notes_append_rule_witness :
    lookupS "notes" (update_record_updates [("notes", some "[T0]\nA")]
      [("notes", some "B")] "T1") = some "[T0]\nA\n\n[T1]\nB" := by
  have h := notes_append_rule [("notes", some "[T0]\nA")] [("notes", some "B")] "T1" "B"
    rfl (by decide)
  rw [h]
  rfl

/-- Claim C8: for a non-notes mergeable field whose current value is null,
empty, or the literal `"None"`, the merge stores the proposed value
verbatim and the change summary for the field is the `set initial value`
category carrying that value. -/
theorem null_current_bootstrap (cd data : Row) (ts : String) (k v : String)
    (hnd : (data.map Prod.fst).Nodup)
    (hl : lookupS k data = some (some v))
    (hp : k ∉ protected_fields) (hk : k ≠ "notes")
    (hcv : dget cd k = none ∨ dget cd k = some "None" ∨ dget cd k = some "") :
    lookupS k (update_record_updates cd data ts) = some v ∧
    (k, FieldChange.setInitialValue v) ∈ (update_record_result cd data ts).2 := by
  have hlook : lookupS k (update_record_updates cd data ts) = some v := by
    rw [lookupS_update_record_updates hnd hk hl, if_neg hp, mergeField_nullish k v hcv]
  refine ⟨hlook, ?_⟩
  have hmem : (k, v) ∈ update_record_updates cd data ts := mem_of_lookupS_eq_some hlook
  have hne : update_record_updates cd data ts ≠ [] := by
    intro h0
    rw [h0] at hmem
    simp at hmem
  have hsum : fieldSummary cd k v = FieldChange.setInitialValue v := by
    unfold fieldSummary
    rw [if_neg hk]
    rcases hcv with hcv | hcv | hcv
    · rw [hcv]
    · rw [hcv]
      simp
    · rw [hcv]
      simp
  unfold update_record_result
  simp only [if_neg hne]
  unfold update_record_summary
  refine List.mem_map.mpr ⟨(k, v), hmem, ?_⟩
  rw [hsum]

/-- Witness for C8: the spec's own test case `merge({medications: None},
{medications: "Aspirin"})`. -/
theorem null_current_bootstrap_witness :
    lookupS "medications" (update_record_updates [("medications", none)]
      [("medications", some "Aspirin")] "T") = some "Aspirin" ∧
    ("medications", FieldChange.setInitialValue "Aspirin") ∈
      (update_record_result [("medications", none)]
        [("medications", some "Aspirin")] "T").2 :=
  null_current_bootstrap [("medications", none)] [("medications", some "Aspirin")]
    "T" "medications" "Aspirin" (by decide) rfl (by decide) (by decide) (Or.inl rfl)

/-- Claim C5: for a non-notes mergeable field whose current value is
non-null and not a null sentinel, if every proposed token is already
present case-insensitively in the current token set, the field is
excluded from the updates mapping entirely. -/
theorem no_new_items_no_write (cd data : Row) (ts : String) (k v cv : String)
    (hnd : (data.map Prod.fst).Nodup)
    (hl : lookupS k data = some (some v))
    (hp : k ∉ protected_fields) (hk : k ≠ "notes")
    (hc : dget cd k = some cv) (h1 : cv ≠ "None") (h2 : cv ≠ "")
    (hsub : ∀ t ∈ newItems v, t ∈ curItems cv) :
    k ∉ (update_record_updates cd data ts).map Prod.fst := by
  intro hmem
  have hs := lookupS_isSome_iff.mpr hmem
  rw [lookupS_update_record_updates hnd hk hl, if_neg hp, hc,
    mergeField_listCase k v h1 h2 hk] at hs
  have hdiff : (newItems v).filter (fun t => decide (t ∉ curItems cv)) = [] := by
    rw [List.filter_eq_nil_iff]
    intro t ht
    simp [hsub t ht]
  rw [if_pos hdiff] at hs
  simp at hs

/-- Witness for C5: the spec's own test case `merge({symptoms:"Fever"},
{symptoms:"fever"})` writes nothing. -/
theorem no_new_items_no_write_witness :
    "symptoms" ∉ (update_record_updates [("symptoms", some "Fever")]
      [("symptoms", some "fever")] "T").map Prod.fst :=
  no_new_items_no_write [("symptoms", some "Fever")] [("symptoms", some "fever")]
    "T" "symptoms" "fever" "Fever" (by decide) rfl (by decide) (by decide) rfl
    (by decide) (by decide) (by decide)

/-- Claim C10: a proposed empty-string notes value bypasses the
timestamped-append rule — with a null/empty/`"None"` current notes the
empty string is stored verbatim, and with a non-empty current notes the
notes field is excluded from the updates mapping. -/
theorem empty_notes_edge (cd data : Row) (ts : String)
    (hnd : (data.map Prod.fst).Nodup) (h : dget data "notes" = some "") :
    lookupS "notes" (update_record_updates cd data ts) =
      (if dget cd "notes" = none ∨ dget cd "notes" = some "None" ∨ dget cd "notes" = some ""
       then some "" else none) := by
  have hl : lookupS "notes" data = some (some "") := dget_lookup_eq_some h
  unfold update_record_updates
  rw [all_none_eq_false_of_mem (mem_of_lookupS_eq_some hl)]
  simp only [Bool.false_eq_true, if_false]
  have hmn : ∀ u : Updates, mergeNotes cd data ts u = u := by
    intro u
    unfold mergeNotes
    rw [h]
    rfl
  rw [hmn, lookupS_buildUpdates hnd, hl]
  simp only [Option.some_bind]
  have hnp : ("notes" : String) ∉ protected_fields := by decide
  rw [if_neg hnp]
  by_cases hcv : dget cd "notes" = none ∨ dget cd "notes" = some "None" ∨ dget cd "notes" = some ""
  · rw [if_pos hcv, mergeField_nullish _ _ hcv]
  · rw [if_neg hcv]
    unfold mergeField
    rw [if_neg hcv]
    cases hdg : dget cd "notes" with
    | none => exact absurd (Or.inl hdg) hcv
    | some cn => simp

/-- Witness for C10 in the null-current case: the empty string is stored
verbatim with no timestamp. -/
theorem empty_notes_edge_witness :
    lookupS "notes" (update_record_updates [("notes", none)]
      [("notes", some "")] "T") = some "" := by
  have h := empty_notes_edge [("notes", none)] [("notes", some "")] "T" (by decide) rfl
  rw [h]
  rfl

/-- Claim C4 counterexample: tokenization does not drop `none` tokens
from the proposed side — merging current `"Fever"` with proposed
`"None"` stores `"Fever, None"`, whose token set contains `none`. -/
theorem proposed_none_token_kept_cex :
    update_record_updates [("symptoms", some "Fever")] [("symptoms", some "None")] "T" =
      [("symptoms", "Fever, None")] ∧ noneTok ∈ newItems "Fever, None" := by
  constructor
  · rfl
  · decide

/-- Claim C4 as amended: splitting on commas, trimming and dropping
empties happens on both sides, but tokens lowercasing to `none` are
dropped from the current value's token set only; a proposed `none` token
survives and can be added to the stored value. -/
theorem tokenize_none_amended :
    (∀ cv : String, noneTok ∉ curItems cv) ∧
    noneTok ∈ newItems "None" ∧
    lookupS "symptoms" (update_record_updates [("symptoms", some "Fever")]
      [("symptoms", some "None")] "T") = some "Fever, None" := by
  refine ⟨?_, by decide, by decide⟩
  intro cv hmem
  unfold curItems at hmem
  rw [List.mem_dedup] at hmem
  rcases List.mem_map.mp hmem with ⟨t, ht, hlow⟩
  rcases List.mem_filter.mp ht with ⟨-, hdec⟩
  rw [decide_eq_true_eq] at hdec
  exact hdec hlow

/-! ## Totality: the fallible model never reaches an error -/

theorem exceptBind_ok {A B : Type} (a : A) (f : A → Except String B) :
    (Except.ok a : Except String A) >>= f = f a := rfl

theorem mergeNotesE_ok (cd data : Row) (ts : String) (u : Updates) :
    mergeNotesE cd data ts u = Except.ok (mergeNotes cd data ts u) := by
  unfold mergeNotesE mergeNotes
  cases hdg : dget data "notes" with
  | none => rfl
  | some nv =>
    simp only []
    by_cases he : nv = ""
    · rw [if_pos he, if_pos he]
    · rw [if_neg he, if_neg he]
      have hx : dictGet data "notes" = Except.ok (some nv) := by
        unfold dictGet
        rw [dget_lookup_eq_some hdg]
      cases hcn : dget cd "notes" with
      | none =>
        rw [hx]
        rfl
      | some cn =>
        simp only []
        by_cases hc : cn = "None" ∨ cn = ""
        · rw [if_pos hc, if_pos hc, hx]
          rfl
        · rw [if_neg hc, if_neg hc, hx]
          rfl

theorem fieldSummaryE_ok (cd : Row) (key value : String) :
    fieldSummaryE cd key value = Except.ok (fieldSummary cd key value) := by
  unfold fieldSummaryE fieldSummary
  by_cases hk : key = "notes"
  · rw [if_pos hk, if_pos hk]
  · rw [if_neg hk, if_neg hk]
    cases hdg : dget cd key with
    | none => rfl
    | some cv =>
      simp only []
      by_cases hc : cv = "None" ∨ cv = ""
      · rw [if_pos hc, if_pos hc]
      · rw [if_neg hc, if_neg hc]
        have hx : dictGet cd key = Except.ok (some cv) := by
          unfold dictGet
          rw [dget_lookup_eq_some hdg]
        rw [hx, exceptBind_ok]
        simp only [optStr]
        by_cases hfil : (sumNewItems value).filter (fun t => decide (t ∉ sumCurItems cv)) = []
        · rw [if_pos hfil, if_pos hfil]
        · rw [if_neg hfil, if_neg hfil]

theorem summariesE_ok (cd : Row) : ∀ u : Updates,
    summariesE cd u = Except.ok (update_record_summary cd u) := by
  intro u
  induction u with
  | nil => rfl
  | cons kv rest ih =>
    unfold summariesE
    rw [fieldSummaryE_ok, ih]
    rfl

/-- Claim C9: the merge computation is total — for every current record,
proposed update and timestamp, the model in which each Python subscript
access is fallible returns `Except.ok` with the (possibly empty) updates
mapping and change summary; no error path is reachable and the
computation is a terminating function. -/
theorem merge_total_no_raise (cd data : Row) (ts : String) :
    update_recordE cd data ts = Except.ok (update_record_result cd data ts) := by
  unfold update_recordE update_record_result update_record_updates
  by_cases hall : data.all (fun kv => kv.2.isNone) = true
  · rw [if_pos hall, if_pos hall]
    rfl
  · rw [if_neg hall, if_neg hall]
    rw [mergeNotesE_ok, exceptBind_ok]
    by_cases hu : mergeNotes cd data ts (buildUpdates cd data) = []
    · rw [if_pos hu]
      simp [hu]
    · rw [if_neg hu]
      rw [summariesE_ok, exceptBind_ok]
      simp [hu]

/-! ## Union correctness (claim C3) -/

/-- Claim C3 counterexample: the spec's union test case does store
`"Cough, Fever"`, but the change summary reports the lowercased added
item `"cough"`, not `"Cough"` as the claim states. -/
theorem union_summary_lowercase_cex :
    update_record_result [("symptoms", some "Fever")] [("symptoms", some "Fever, Cough")] "T" =
      ([("symptoms", "Cough, Fever")], [("symptoms", FieldChange.addedNewItems "cough")]) ∧
    FieldChange.addedNewItems "cough" ≠ FieldChange.addedNewItems "Cough" := by
  constructor
  · rfl
  · decide

/-- Claim C3 as amended: for a mergeable list-like field with a non-null,
non-sentinel current value, when the proposed value contributes at least
one genuinely new token (case-insensitively), the stored value is the
union of the current token set and the new tokens, sorted by lowercased
token text and re-joined with a comma and space, each item's casing
preferring the proposed value, then the current value, then the
lowercased form; the summary reports the added items lowercased
(e.g. `"cough"`, not `"Cough"`). -/
theorem union_correct_amended (cd data : Row) (ts : String) (k v cv : String)
    (hnd : (data.map Prod.fst).Nodup)
    (hl : lookupS k data = some (some v))
    (hp : k ∉ protected_fields) (hk : k ≠ "notes")
    (hc : dget cd k = some cv) (h1 : cv ≠ "None") (h2 : cv ≠ "")
    (hnew : ∃ t ∈ newItems v, t ∉ curItems cv) :
    lookupS k (update_record_updates cd data ts) =
      some (finalValue cv v (sortTokens (curItems cv ++
        (newItems v).filter (fun t => decide (t ∉ curItems cv))))) := by
  rw [lookupS_update_record_updates hnd hk hl, if_neg hp, hc,
    mergeField_listCase k v h1 h2 hk]
  have hdne : (newItems v).filter (fun t => decide (t ∉ curItems cv)) ≠ [] := by
    obtain ⟨t, ht, hnt⟩ := hnew
    intro h0
    have hmem : t ∈ (newItems v).filter (fun t => decide (t ∉ curItems cv)) :=
      List.mem_filter.mpr ⟨ht, by simpa using hnt⟩
    rw [h0] at hmem
    simp at hmem
  rw [if_neg hdne]

/-- Witness for the amended C3 at the spec's union test case. -/
theorem union_correct_amended_witness :
    lookupS "symptoms" (update_record_updates [("symptoms", some "Fever")]
      [("symptoms", some "Fever, Cough")] "T") = some "Cough, Fever" ∧
    ("symptoms", FieldChange.addedNewItems "cough") ∈
      (update_record_result [("symptoms", some "Fever")]
        [("symptoms", some "Fever, Cough")] "T").2 := by
  constructor
  · have h := union_correct_amended [("symptoms", some "Fever")]
      [("symptoms", some "Fever, Cough")] "T" "symptoms" "Fever, Cough" "Fever"
      (by decide) rfl (by decide) (by decide) rfl (by decide) (by decide) (by decide)
    rw [h]
    rfl
  · decide

/-! ## Facts about splitComma, stripChars and the sort -/

theorem splitComma_ne_nil : ∀ l : List Char, splitComma l ≠ [] := by
  intro l
  cases l with
  | nil => simp [splitComma]
  | cons c cs =>
    unfold splitComma
    by_cases hc : c = ','
    · rw [if_pos hc]
      simp
    · rw [if_neg hc]
      cases h : splitComma cs with
      | nil => simp
      | cons p ps => simp

theorem splitComma_cons_ne {c : Char} {cs : List Char} (hc : c ≠ ',') {p : List Char}
    {ps : List (List Char)} (h : splitComma cs = p :: ps) :
    splitComma (c :: cs) = (c :: p) :: ps := by
  unfold splitComma
  rw [if_neg hc, h]

theorem mem_splitComma_no_comma : ∀ {l p : List Char}, p ∈ splitComma l → ',' ∉ p := by
  intro l
  induction l with
  | nil =>
    intro p hp
    simp [splitComma] at hp
    subst hp
    simp
  | cons c cs ih =>
    intro p hp
    by_cases hc : c = ','
    · subst hc
      unfold splitComma at hp
      rw [if_pos rfl] at hp
      rcases List.mem_cons.mp hp with rfl | hp'
      · simp
      · exact ih hp'
    · cases h : splitComma cs with
      | nil => exact absurd h (splitComma_ne_nil cs)
      | cons q qs =>
        rw [splitComma_cons_ne hc h] at hp
        rcases List.mem_cons.mp hp with rfl | hp'
        · intro hcm
          rcases List.mem_cons.mp hcm with he | hin
          · exact hc he.symm
          · exact ih (h ▸ List.mem_cons_self q qs) hin
        · exact ih (h ▸ List.mem_cons_of_mem q hp')

theorem splitComma_no_comma : ∀ {l : List Char}, ',' ∉ l → splitComma l = [l] := by
  intro l
  induction l with
  | nil => intro _; rfl
  | cons c cs ih =>
    intro h
    have hc : c ≠ ',' := fun he => h (by rw [he]; exact List.mem_cons_self _ _)
    have hcs : ',' ∉ cs := fun hm => h (List.mem_cons_of_mem _ hm)
    rw [splitComma_cons_ne hc (ih hcs)]

theorem splitComma_append : ∀ {a : List Char}, ',' ∉ a → ∀ r : List Char,
    splitComma (a ++ ',' :: r) = a :: splitComma r := by
  intro a
  induction a with
  | nil =>
    intro _ r
    show splitComma (',' :: r) = [] :: splitComma r
    conv_lhs => rw [splitComma]
    rw [if_pos rfl]
  | cons c cs ih =>
    intro ha r
    have hc : c ≠ ',' := fun he => ha (by rw [he]; exact List.mem_cons_self _ _)
    have hcs : ',' ∉ cs := fun hm => ha (List.mem_cons_of_mem _ hm)
    rw [List.cons_append, splitComma_cons_ne hc (ih hcs r)]

theorem dropWhile_dropWhile (p : Char → Bool) : ∀ l : List Char,
    (l.dropWhile p).dropWhile p = l.dropWhile p := by
  intro l
  induction l with
  | nil => rfl
  | cons c cs ih =>
    rw [List.dropWhile_cons]
    by_cases hc : p c = true
    · rw [if_pos hc]
      exact ih
    · rw [if_neg hc, List.dropWhile_cons, if_neg hc]

theorem dropWhile_eq_self_of_prefix (p : Char → Bool) :
    ∀ {x pre r : List Char}, x.dropWhile p = x → pre ++ r = x →
    pre.dropWhile p = pre := by
  intro x pre r hx hpre
  cases pre with
  | nil => rfl
  | cons c cs =>
    have hc : p c = false := by
      by_contra hcb
      have hcb' : p c = true := by
        cases hpc : p c with
        | false => exact absurd hpc hcb
        | true => rfl
      have hxc : x = c :: (cs ++ r) := by rw [← hpre]; rfl
      rw [hxc, List.dropWhile_cons, if_pos hcb'] at hx
      have hlen := congrArg List.length hx
      have hle : (List.dropWhile p (cs ++ r)).length ≤ (cs ++ r).length :=
        (List.dropWhile_sublist _).length_le
      simp only [List.length_cons] at hlen
      omega
    rw [List.dropWhile_cons, if_neg (by rw [hc]; simp)]

theorem stripChars_idem (l : List Char) : stripChars (stripChars l) = stripChars l := by
  have hyy : (l.dropWhile Char.isWhitespace).dropWhile Char.isWhitespace =
      l.dropWhile Char.isWhitespace := dropWhile_dropWhile _ l
  have hzz : (((l.dropWhile Char.isWhitespace).reverse.dropWhile Char.isWhitespace).dropWhile
      Char.isWhitespace) =
      (l.dropWhile Char.isWhitespace).reverse.dropWhile Char.isWhitespace :=
    dropWhile_dropWhile _ _
  have hsplit : ((l.dropWhile Char.isWhitespace).reverse.dropWhile Char.isWhitespace).reverse ++
      ((l.dropWhile Char.isWhitespace).reverse.takeWhile Char.isWhitespace).reverse =
      l.dropWhile Char.isWhitespace := by
    rw [← List.reverse_append, List.takeWhile_append_dropWhile, List.reverse_reverse]
  have h1 : (((l.dropWhile Char.isWhitespace).reverse.dropWhile
      Char.isWhitespace).reverse).dropWhile Char.isWhitespace =
      ((l.dropWhile Char.isWhitespace).reverse.dropWhile Char.isWhitespace).reverse :=
    dropWhile_eq_self_of_prefix _ hyy hsplit
  show stripChars (((l.dropWhile Char.isWhitespace).reverse.dropWhile
      Char.isWhitespace).reverse) = _
  unfold stripChars
  rw [h1, List.reverse_reverse, hzz]

theorem stripChars_cons_space (l : List Char) : stripChars (' ' :: l) = stripChars l := by
  unfold stripChars
  rw [List.dropWhile_cons, if_pos (by decide)]

theorem mem_stripChars {l : List Char} {c : Char} (h : c ∈ stripChars l) : c ∈ l := by
  unfold stripChars at h
  rw [List.mem_reverse] at h
  have h2 : c ∈ (l.dropWhile Char.isWhitespace).reverse :=
    (List.dropWhile_sublist _).subset h
  rw [List.mem_reverse] at h2
  exact (List.dropWhile_sublist _).subset h2

theorem insertTok_perm (x : List Char) : ∀ l, (insertTok x l).Perm (x :: l) := by
  intro l
  induction l with
  | nil => exact List.Perm.refl _
  | cons y ys ih =>
    unfold insertTok
    by_cases h : charListLt x y = true
    · rw [if_pos h]
    · rw [if_neg h]
      exact (List.Perm.cons y ih).trans (List.Perm.swap x y ys)

theorem sortTokens_perm : ∀ l, (sortTokens l).Perm l := by
  intro l
  induction l with
  | nil => exact List.Perm.refl _
  | cons x xs ih =>
    show (insertTok x (sortTokens xs)).Perm (x :: xs)
    exact (insertTok_perm _ _).trans (List.Perm.cons x ih)

theorem mem_sortTokens {t : List Char} {l : List (List Char)} :
    t ∈ sortTokens l ↔ t ∈ l := (sortTokens_perm l).mem_iff

theorem nodup_sortTokens {l : List (List Char)} (h : l.Nodup) :
    (sortTokens l).Nodup := ((sortTokens_perm l).nodup_iff).mpr h

/-! ## Token-set membership and the retokenization of a stored value -/

theorem mem_newItems_iff {s : String} {t : List Char} :
    t ∈ newItems s ↔ ∃ x ∈ rawTokens s.data, lowerC x = t := by
  unfold newItems
  rw [List.mem_dedup]
  exact List.mem_map

theorem mem_curItems_iff {cv : String} {t : List Char} :
    t ∈ curItems cv ↔ t ∈ newItems cv ∧ t ≠ noneTok := by
  unfold curItems
  rw [List.mem_dedup, List.mem_map]
  unfold newItems
  rw [List.mem_dedup, List.mem_map]
  constructor
  · rintro ⟨x, hx, rfl⟩
    rcases List.mem_filter.mp hx with ⟨hxr, hdec⟩
    rw [decide_eq_true_eq] at hdec
    exact ⟨⟨x, hxr, rfl⟩, hdec⟩
  · rintro ⟨⟨x, hxr, rfl⟩, hne⟩
    exact ⟨x, List.mem_filter.mpr ⟨hxr, by simpa using hne⟩, rfl⟩

theorem mem_rawTokens_raw {s : List Char} {x : List Char} (h : x ∈ rawTokens s) :
    x ∈ (splitComma s).map stripChars ∧ x ≠ [] := by
  rcases List.mem_filter.mp h with ⟨hm, hdec⟩
  exact ⟨hm, by simpa using hdec⟩

theorem ne_nil_of_mem_newItems {s : String} {t : List Char} (h : t ∈ newItems s) :
    t ≠ [] := by
  rcases mem_newItems_iff.mp h with ⟨x, hx, rfl⟩
  obtain ⟨-, hne⟩ := mem_rawTokens_raw hx
  intro h0
  unfold lowerC at h0
  rw [List.map_eq_nil_iff] at h0
  exact hne h0

theorem findCasing_isSome_of_mem {s : String} {t : List Char} (h : t ∈ newItems s) :
    (findCasing s.data t).isSome := by
  rcases mem_newItems_iff.mp h with ⟨x, hx, rfl⟩
  obtain ⟨hm, -⟩ := mem_rawTokens_raw hx
  unfold findCasing
  rw [List.find?_isSome]
  exact ⟨x, hm, by simp⟩

theorem originalCase_spec {nv cv : String} {k : List Char}
    (hfind : (findCasing nv.data k).isSome ∨ (findCasing cv.data k).isSome) :
    (∃ s : String, (s = nv ∨ s = cv) ∧
      originalCase nv.data cv.data k ∈ (splitComma s.data).map stripChars) ∧
    lowerC (originalCase nv.data cv.data k) = k := by
  unfold originalCase
  cases hn : findCasing nv.data k with
  | some x =>
    unfold findCasing at hn
    have hpx := List.find?_some hn
    rw [decide_eq_true_eq] at hpx
    exact ⟨⟨nv, Or.inl rfl, List.mem_of_find?_eq_some hn⟩, hpx⟩
  | none =>
    cases hc : findCasing cv.data k with
    | some y =>
      unfold findCasing at hc
      have hpy := List.find?_some hc
      rw [decide_eq_true_eq] at hpy
      exact ⟨⟨cv, Or.inr rfl, List.mem_of_find?_eq_some hc⟩, hpy⟩
    | none =>
      exfalso
      rcases hfind with hs | hs
      · rw [hn] at hs
        simp at hs
      · rw [hc] at hs
        simp at hs

theorem rawTokens_cons_space (l : List Char) : rawTokens (' ' :: l) = rawTokens l := by
  unfold rawTokens
  cases h : splitComma l with
  | nil => exact absurd h (splitComma_ne_nil l)
  | cons p ps =>
    rw [splitComma_cons_ne (by decide) h]
    simp only [List.map_cons, stripChars_cons_space]

theorem rawTokens_append_comma {a : List Char} (ha1 : stripChars a = a) (ha2 : ',' ∉ a)
    (ha3 : a ≠ []) (X : List Char) :
    rawTokens (a ++ ',' :: X) = a :: rawTokens X := by
  unfold rawTokens
  rw [splitComma_append ha2]
  simp only [List.map_cons, ha1]
  rw [List.filter_cons_of_pos (by simp [ha3])]

theorem rawTokens_join : ∀ {items : List (List Char)},
    (∀ x ∈ items, stripChars x = x ∧ ',' ∉ x ∧ x ≠ []) →
    rawTokens (joinWithCS items) = items := by
  intro items
  induction items with
  | nil => intro _; rfl
  | cons a rest ih =>
    intro h
    obtain ⟨ha1, ha2, ha3⟩ := h a (List.mem_cons_self _ _)
    cases rest with
    | nil =>
      show rawTokens a = [a]
      unfold rawTokens
      rw [splitComma_no_comma ha2]
      simp only [List.map_cons, List.map_nil, ha1]
      rw [List.filter_cons_of_pos (by simp [ha3])]
      rfl
    | cons b t =>
      show rawTokens (a ++ ',' :: ' ' :: joinWithCS (b :: t)) = a :: b :: t
      rw [rawTokens_append_comma ha1 ha2 ha3, rawTokens_cons_space,
        ih (fun x hx => h x (List.mem_cons_of_mem _ hx))]

theorem rawTokens_finalValue {cv nv : String} {keys : List (List Char)}
    (hk : ∀ k ∈ keys, k ≠ [] ∧
      ((findCasing nv.data k).isSome ∨ (findCasing cv.data k).isSome)) :
    rawTokens (finalValue cv nv keys).data =
      keys.map (originalCase nv.data cv.data) := by
  have hprops : ∀ x ∈ keys.map (originalCase nv.data cv.data),
      stripChars x = x ∧ ',' ∉ x ∧ x ≠ [] := by
    intro x hx
    rcases List.mem_map.mp hx with ⟨k, hkmem, rfl⟩
    obtain ⟨hne, hfind⟩ := hk k hkmem
    obtain ⟨⟨s, -, hmem⟩, hlow⟩ := originalCase_spec hfind
    rcases List.mem_map.mp hmem with ⟨x₀, hx₀, heq⟩
    rw [← heq]
    refine ⟨stripChars_idem x₀, ?_, ?_⟩
    · intro hcm
      exact mem_splitComma_no_comma hx₀ (mem_stripChars hcm)
    · intro h0
      apply hne
      rw [← hlow, ← heq, h0]
      rfl
  show rawTokens (joinWithCS (keys.map (originalCase nv.data cv.data))) = _
  exact rawTokens_join hprops

theorem newItems_finalValue {cv nv : String} {keys : List (List Char)}
    (hnodup : keys.Nodup)
    (hk : ∀ k ∈ keys, k ≠ [] ∧
      ((findCasing nv.data k).isSome ∨ (findCasing cv.data k).isSome)) :
    newItems (finalValue cv nv keys) = keys := by
  unfold newItems
  rw [rawTokens_finalValue hk, List.map_map]
  have hcongr : keys.map (lowerC ∘ originalCase nv.data cv.data) = keys.map id := by
    refine List.map_congr_left ?_
    intro k hkm
    obtain ⟨-, hfind⟩ := hk k hkm
    exact (originalCase_spec hfind).2
  rw [hcongr, List.map_id, List.dedup_eq_self.mpr hnodup]

/-! ## Second application of the same proposed value -/

theorem mergeField_finalValue_self {cv v k : String}
    (hk : k ≠ "notes") (hnone : noneTok ∉ newItems v)
    (hfil : (newItems v).filter (fun t => decide (t ∉ curItems cv)) ≠ []) :
    mergeField (some (finalValue cv v (sortTokens (curItems cv ++
      (newItems v).filter (fun t => decide (t ∉ curItems cv)))))) k v = none := by
  set diff := (newItems v).filter (fun t => decide (t ∉ curItems cv)) with hdiffdef
  set keys := sortTokens (curItems cv ++ diff) with hkeysdef
  set w := finalValue cv v keys with hwdef
  have hperm : keys.Perm (curItems cv ++ diff) := sortTokens_perm _
  have hmemkeys : ∀ t, t ∈ keys ↔ (t ∈ curItems cv ∨ t ∈ diff) := by
    intro t
    rw [hperm.mem_iff, List.mem_append]
  have hcurnodup : (curItems cv).Nodup := by
    unfold curItems
    exact List.nodup_dedup _
  have hdiffnodup : diff.Nodup := by
    rw [hdiffdef]
    refine List.Nodup.filter _ ?_
    unfold newItems
    exact List.nodup_dedup _
  have hnodup : keys.Nodup := by
    apply nodup_sortTokens
    rw [List.nodup_append]
    refine ⟨hcurnodup, hdiffnodup, ?_⟩
    intro t htc htd
    rcases List.mem_filter.mp htd with ⟨-, hdec⟩
    rw [decide_eq_true_eq] at hdec
    exact hdec htc
  have hkprops : ∀ t ∈ keys, t ≠ [] ∧
      ((findCasing v.data t).isSome ∨ (findCasing cv.data t).isSome) := by
    intro t ht
    rcases (hmemkeys t).mp ht with hc | hd
    · have hcnew := (mem_curItems_iff.mp hc).1
      exact ⟨ne_nil_of_mem_newItems hcnew, Or.inr (findCasing_isSome_of_mem hcnew)⟩
    · have hdnew : t ∈ newItems v := (List.mem_filter.mp hd).1
      exact ⟨ne_nil_of_mem_newItems hdnew, Or.inl (findCasing_isSome_of_mem hdnew)⟩
  have hni : newItems w = keys := newItems_finalValue hnodup hkprops
  have hkeysnone : noneTok ∉ keys := by
    intro hmem
    rcases (hmemkeys noneTok).mp hmem with hcc | hdd
    · exact (mem_curItems_iff.mp hcc).2 rfl
    · exact hnone (List.mem_filter.mp hdd).1
  have hkne : keys ≠ [] := by
    intro h0
    apply hfil
    have hnil : curItems cv ++ diff = [] := by
      have hp := hperm
      rw [h0] at hp
      exact hp.symm.eq_nil
    exact (List.append_eq_nil.mp hnil).2
  have hwE : w ≠ "" := by
    intro h0
    rw [h0] at hni
    have h00 : newItems "" = [] := by decide
    rw [h00] at hni
    exact hkne hni.symm
  have hwN : w ≠ "None" := by
    intro h0
    rw [h0] at hni
    have h00 : newItems "None" = [noneTok] := by decide
    rw [h00] at hni
    apply hkeysnone
    rw [← hni]
    exact List.mem_cons_self _ _
  rw [mergeField_listCase k v hwN hwE hk]
  have hfil2 : (newItems v).filter (fun t => decide (t ∉ curItems w)) = [] := by
    rw [List.filter_eq_nil_iff]
    intro t ht
    simp only [decide_eq_true_eq, not_not]
    rw [mem_curItems_iff, hni]
    refine ⟨?_, fun he => hnone (he ▸ ht)⟩
    rw [hmemkeys]
    by_cases hcc : t ∈ curItems cv
    · exact Or.inl hcc
    · exact Or.inr (List.mem_filter.mpr ⟨ht, by simpa using hcc⟩)
  rw [if_pos hfil2]

theorem mergeField_self_none {cv? : Option String} {k v w : String}
    (hk : k ≠ "notes") (hv : v ≠ "") (hnone : noneTok ∉ newItems v)
    (hm : mergeField cv? k v = some w) :
    mergeField (some w) k v = none := by
  have hvN : v ≠ "None" := by
    intro h0
    apply hnone
    rw [h0]
    decide
  by_cases hnull : cv? = none ∨ cv? = some "None" ∨ cv? = some ""
  · rw [mergeField_nullish k v hnull] at hm
    have hwv : v = w := by injection hm
    rw [← hwv]
    rw [mergeField_listCase k v hvN hv hk]
    have hfil : (newItems v).filter (fun t => decide (t ∉ curItems v)) = [] := by
      rw [List.filter_eq_nil_iff]
      intro t ht
      simp only [decide_eq_true_eq, not_not]
      rw [mem_curItems_iff]
      exact ⟨ht, fun he => hnone (he ▸ ht)⟩
    rw [if_pos hfil]
  · push_neg at hnull
    obtain ⟨hn1, hn2, hn3⟩ := hnull
    cases cv? with
    | none => exact absurd rfl hn1
    | some cv =>
      have hcN : cv ≠ "None" := fun h0 => hn2 (by rw [h0])
      have hcE : cv ≠ "" := fun h0 => hn3 (by rw [h0])
      rw [mergeField_listCase k v hcN hcE hk] at hm
      by_cases hfil : (newItems v).filter (fun t => decide (t ∉ curItems cv)) = []
      · rw [if_pos hfil] at hm
        exact absurd hm (by simp)
      · rw [if_neg hfil] at hm
        have hw : finalValue cv v (sortTokens (curItems cv ++
            (newItems v).filter (fun t => decide (t ∉ curItems cv)))) = w := by
          injection hm
        rw [← hw]
        exact mergeField_finalValue_self hk hnone hfil

/-! ## Reading a field back after the guarded write -/

theorem lookupS_performUpdate {row : Row} {u : Updates} {ts2 : String} {k : String}
    (hup : k ≠ "updated_at") (hu : u ≠ []) :
    lookupS k (performUpdate row u ts2) =
      (lookupS k row).map (fun x =>
        match lookupS k u with
        | some w => some w
        | none => x) := by
  unfold performUpdate
  rw [if_neg hu]
  induction row with
  | nil => rfl
  | cons p t ih =>
    obtain ⟨k₁, x⟩ := p
    rw [List.map_cons]
    simp only [lookupS]
    by_cases hk : k = k₁
    · rw [if_pos hk, if_pos hk]
      subst hk
      rw [if_neg hup]
      cases lookupS k u <;> rfl
    · rw [if_neg hk, if_neg hk]
      exact ih

theorem dget_performUpdate_of_lookup_none {row : Row} {u : Updates} {ts2 : String} {k : String}
    (hl : lookupS k u = none) (hup : k ≠ "updated_at") :
    dget (performUpdate row u ts2) k = dget row k := by
  by_cases hu : u = []
  · unfold performUpdate
    rw [if_pos hu]
  · unfold dget
    rw [lookupS_performUpdate hup hu, hl]
    cases lookupS k row with
    | none => rfl
    | some x => rfl

theorem dget_performUpdate_of_lookup_some {row : Row} {u : Updates} {ts2 : String}
    {k w : String} (hmem : k ∈ row.map Prod.fst) (hup : k ≠ "updated_at")
    (hw : lookupS k u = some w) :
    dget (performUpdate row u ts2) k = some w := by
  have hu : u ≠ [] := by
    intro h0
    rw [h0] at hw
    simp [lookupS] at hw
  unfold dget
  rw [lookupS_performUpdate hup hu, hw]
  have hs := lookupS_isSome_iff.mpr hmem
  cases hl2 : lookupS k row with
  | none =>
    rw [hl2] at hs
    simp at hs
  | some x => rfl

/-! ## Idempotence (claim C1) -/

/-- Claim C1 counterexample: idempotence fails for a non-notes field
when the proposed value carries a `none` token — merging current
`"Fever"` with proposed `"None"` stores `"Fever, None"`, and applying the
same update to the updated record writes `symptoms` again. -/
theorem merge_not_idempotent_cex :
    "symptoms" ∈ (update_record_updates
      (performUpdate [("symptoms", some "Fever"), ("updated_at", some "t0")]
        (update_record_updates [("symptoms", some "Fever"), ("updated_at", some "t0")]
          [("symptoms", some "None")] "T1") "T2")
      [("symptoms", some "None")] "T3").map Prod.fst ∧
    "symptoms" ≠ "notes" := by
  constructor
  · decide
  · decide

/-- Claim C1 as amended: applying the same update twice produces an empty
updates set for every field except notes, provided every proposed
non-null value for a non-notes field names an existing column, is not the
empty string, and has no comma-token that trims and lowercases to the
literal `none`; without that proviso a field can keep reappearing in the
updates set (see the counterexample). -/
theorem merge_idempotent_amended (cd data : Row) (ts ts2 ts3 : String)
    (hndd : (data.map Prod.fst).Nodup)
    (hvals : ∀ k v, (k, some v) ∈ data → k ≠ "notes" →
      k ∈ cd.map Prod.fst ∧ v ≠ "" ∧ noneTok ∉ newItems v) :
    ∀ k, k ∈ (update_record_updates
        (performUpdate cd (update_record_updates cd data ts) ts2) data ts3).map Prod.fst →
      k = "notes" := by
  intro k hmem
  by_contra hk
  by_cases hall : data.all (fun kv => kv.2.isNone) = true
  · unfold update_record_updates at hmem
    rw [if_pos hall] at hmem
    simp at hmem
  · have houter : ∀ cd' : Row, update_record_updates cd' data ts3 =
        mergeNotes cd' data ts3 (buildUpdates cd' data) := by
      intro cd'
      unfold update_record_updates
      rw [if_neg hall]
    rw [houter] at hmem
    rcases mem_keys_mergeNotes hmem with hbu | heq
    swap
    · exact hk heq
    have hsome := lookupS_isSome_iff.mpr hbu
    rw [lookupS_buildUpdates hndd k] at hsome
    cases hld : lookupS k data with
    | none =>
      rw [hld] at hsome
      simp at hsome
    | some x =>
      cases x with
      | none =>
        rw [hld] at hsome
        simp at hsome
      | some v =>
        rw [hld] at hsome
        simp only [Option.some_bind] at hsome
        by_cases hprot : k ∈ protected_fields
        · rw [if_pos hprot] at hsome
          simp at hsome
        · rw [if_neg hprot] at hsome
          obtain ⟨hkcd, hv, hnone⟩ := hvals k v (mem_of_lookupS_eq_some hld) hk
          have hup : k ≠ "updated_at" := by
            intro h0
            apply hprot
            rw [h0]
            decide
          have hu1 : lookupS k (update_record_updates cd data ts) =
              mergeField (dget cd k) k v := by
            rw [lookupS_update_record_updates hndd hk hld, if_neg hprot]
          cases hm : mergeField (dget cd k) k v with
          | none =>
            have hd : dget (performUpdate cd (update_record_updates cd data ts) ts2) k =
                dget cd k :=
              dget_performUpdate_of_lookup_none (by rw [hu1, hm]) hup
            rw [hd, hm] at hsome
            simp at hsome
          | some w =>
            have hd : dget (performUpdate cd (update_record_updates cd data ts) ts2) k =
                some w :=
              dget_performUpdate_of_lookup_some hkcd hup (by rw [hu1, hm])
            rw [hd, mergeField_self_none hk hv hnone hm] at hsome
            simp at hsome

/-- Witness for the amended C1: the union test case applied twice writes
nothing the second time. -/
theorem merge_idempotent_amended_witness :
    "symptoms" ∉ (update_record_updates
      (performUpdate [("symptoms", some "Fever"), ("updated_at", some "t0")]
        (update_record_updates [("symptoms", some "Fever"), ("updated_at", some "t0")]
          [("symptoms", some "Fever, Cough")] "T1") "T2")
      [("symptoms", some "Fever, Cough")] "T3").map Prod.fst := by
  intro hmem
  have hvals : ∀ k v, (k, some v) ∈ ([("symptoms", some "Fever, Cough")] : Row) →
      k ≠ "notes" →
      k ∈ ([("symptoms", some "Fever"), ("updated_at", some "t0")] : Row).map Prod.fst ∧
      v ≠ "" ∧ noneTok ∉ newItems v := by
    intro k v hkv _
    rw [List.mem_singleton, Prod.mk.injEq, Option.some.injEq] at hkv
    obtain ⟨rfl, rfl⟩ := hkv
    refine ⟨by decide, by decide, by decide⟩
  exact absurd (merge_idempotent_amended
    [("symptoms", some "Fever"), ("updated_at", some "t0")]
    [("symptoms", some "Fever, Cough")] "T1" "T2" "T3" (by decide) hvals
    "symptoms" hmem) (by decide)
